import Mathlib

/-!
Verification of the Multi-Camera-Recording pipeline.

This file gives a shallow embedding of the recording core:
* `MultiCamRecorder` (src/Ver.3/MultiCamRecorder.py): per-camera bounded
  queues with drop-oldest overflow (`enqueue`), the alignment loop body
  (`runStep`, one iteration of `MultiCamRecorder.run`'s while loop), lazy
  per-camera writer creation (`writer_for` / `write_batch`), and
  `stop` together with the thread-exit epilogue that releases writers.
* `CameraThread.retrieve_frame` (src/Ver.2/CameraThread.py): fail-soft
  zero-filled frame on device retrieve failure.
* The two-phase barrier rendezvous between the per-camera grab threads
  and the retrieve dispatcher (`CameraThread.run` / `SyncThread.run`),
  as an interleaving transition system `GateStep` with reachability.

Timestamps are nanosecond counts modelled as `Nat`; pixel buffers are
nested lists; maps keyed by camera id are modelled as total functions
`Nat → Option _` whose domain is the configured `cam_ids` list (Python
dict iteration order is insertion order, which is the `cam_ids` order
for every dict the recorder creates).
-/

namespace MultiCam

/-- A pixel buffer: rows of pixels of channel values (numpy ndarray shape
`(height, width, channels)`). -/
abbrev Buffer := List (List (List Nat))

/-- `np.zeros((h, w, c), dtype=np.uint8)`. -/
def zeros (h w c : Nat) : Buffer :=
  List.replicate h (List.replicate w (List.replicate c 0))

/-- A decoded video frame as the recorder sees it: `frame.shape` is
`(height, width, channels)`; `payload` stands for the pixel contents
(`frame.copy()` copies the contents unchanged, so it is the identity on
this value model). -/
structure Frame where
  height : Nat
  width : Nat
  channels : Nat
  payload : Nat
deriving DecidableEq, Repr

/-- A `cv2.VideoWriter` as created by `MultiCamRecorder._writer_for`:
opened with frame size `(w, h)` and the session fps; `frames` records the
sequence of frames written; `released` counts `release()` calls. -/
structure Writer where
  width : Nat
  height : Nat
  fps : Nat
  frames : List Frame
  released : Nat
deriving DecidableEq, Repr

/-- State of a `MultiCamRecorder` instance.  `queues`, `writers` and
`peek_buf` model the Python dicts keyed by camera id (keys = `cam_ids`);
`running` is the `threading.Event`; `alive` tracks whether the recorder
thread (loop plus its release epilogue) has not yet terminated. -/
structure RecState where
  cam_ids : List Nat
  fps : Nat
  sync_window_ns : Nat
  queue_size : Nat
  queues : Nat → List (Nat × Frame)
  writers : Nat → Option Writer
  peek_buf : Nat → Option (Nat × Frame)
  running : Bool
  alive : Bool

/-- `MultiCamRecorder.enqueue(cam_id, frame, ts_ns)`: no-op unless running
and the camera is configured; a `None` timestamp is replaced by the
monotonic clock (`now`); `put_nowait` raises `queue.Full` exactly when the
queue has positive capacity and is at capacity, in which case the oldest
entry is popped before inserting the new one. -/
def enqueue (s : RecState) (cam_id : Nat) (frame : Frame)
    (ts_ns : Option Nat) (now : Nat) : RecState :=
  if s.running = false ∨ cam_id ∉ s.cam_ids then s
  else
    let ts := ts_ns.getD now
    let q := s.queues cam_id
    let q' := if 0 < s.queue_size ∧ s.queue_size ≤ q.length
      then q.tail ++ [(ts, frame)]
      else q ++ [(ts, frame)]
    { s with queues := fun c => if c = cam_id then q' else s.queues c }

/-- First phase of a loop iteration: for every configured camera whose
peek slot is empty and whose queue is non-empty, record the queue head
(`q.queue[0]`) in the peek slot without removing it. -/
def fillPeeks (s : RecState) : RecState :=
  { s with peek_buf := fun cid =>
      if cid ∈ s.cam_ids ∧ s.peek_buf cid = none ∧ s.queues cid ≠ []
      then (s.queues cid).head?
      else s.peek_buf cid }

/-- `ts_list = [ts for ts, _ in self._peek_buf.values()]` (dict value
order is the `cam_ids` order). -/
def tsList (s : RecState) : List Nat :=
  s.cam_ids.filterMap (fun cid => (s.peek_buf cid).map Prod.fst)

/-- `min(ts_list)` (defaulted for totality; the loop only evaluates it
when every peek slot is filled). -/
def tMin (s : RecState) : Nat := (tsList s).min?.getD 0

/-- `max(ts_list)` (defaulted for totality). -/
def tMax (s : RecState) : Nat := (tsList s).max?.getD 0

/-- The committed batch assembled in the commit branch: for each camera in
`cam_ids` order, the frame of the queue head removed by `q.get()`. -/
def mkBatch (s : RecState) : List (Nat × Frame) :=
  s.cam_ids.filterMap (fun cid => ((s.queues cid).head?).map (fun p => (cid, p.2)))

/-- `MultiCamRecorder._writer_for(cid, frame_shape)`: return the existing
writer for `cid`, or create one with the frame's `(w, h)` and the session
fps and store it in the map. -/
def writer_for (fps : Nat) (writers : Nat → Option Writer) (cid : Nat)
    (fr : Frame) : (Nat → Option Writer) × Writer :=
  match writers cid with
  | some vw => (writers, vw)
  | none =>
      let vw : Writer :=
        { width := fr.width, height := fr.height, fps := fps,
          frames := [], released := 0 }
      (fun c => if c = cid then some vw else writers c, vw)

/-- One `vw = self._writer_for(cid, frame.shape); vw.write(frame)` step. -/
def writeFrame (fps : Nat) (writers : Nat → Option Writer) (cid : Nat)
    (fr : Frame) : Nat → Option Writer :=
  let res := writer_for fps writers cid fr
  fun c => if c = cid
    then some { res.2 with frames := res.2.frames ++ [fr] }
    else res.1 c

/-- `MultiCamRecorder._write_batch(batch)`: write each camera's frame via
its (lazily created) writer. -/
def write_batch (fps : Nat) (writers : Nat → Option Writer)
    (batch : List (Nat × Frame)) : Nat → Option Writer :=
  batch.foldl (fun ws p => writeFrame fps ws p.1 p.2) writers

/-- Outcome of one iteration of the `run` while-loop body. -/
inductive StepResult where
  | stopped
  | idle
  | committed (batch : List (Nat × Frame))
  | dropped (cid : Nat)
deriving DecidableEq, Repr

/-- One iteration of `MultiCamRecorder.run`'s while loop: check the stop
flag; fill peek slots; if some camera still lacks a peeked item, idle;
otherwise commit the batch when the timestamp spread is within the sync
window, else drop the head of the camera holding the minimum timestamp
(`cam_ids[ts_list.index(t_min)]`). -/
def runStep (s : RecState) : RecState × StepResult :=
  if s.running = false then (s, .stopped)
  else
    let s1 := fillPeeks s
    if s1.cam_ids.any (fun cid => (s1.peek_buf cid).isNone) then (s1, .idle)
    else
      if tMax s1 - tMin s1 ≤ s1.sync_window_ns then
        let batch := mkBatch s1
        let s2 : RecState := { s1 with
          queues := fun c => if c ∈ s1.cam_ids then (s1.queues c).tail else s1.queues c,
          peek_buf := fun c => if c ∈ s1.cam_ids then none else s1.peek_buf c,
          writers := write_batch s1.fps s1.writers batch }
        (s2, .committed batch)
      else
        let cd := s1.cam_ids.getD ((tsList s1).indexOf (tMin s1)) 0
        let s2 : RecState := { s1 with
          queues := fun c => if c = cd then (s1.queues c).tail else s1.queues c,
          peek_buf := fun c => if c = cd then none else s1.peek_buf c }
        (s2, .dropped cd)

/-- Release every writer in the map (`for w in self.writers.values():
w.release()` at loop exit); the maps themselves are NOT cleared. -/
def releaseAll (writers : Nat → Option Writer) : Nat → Option Writer :=
  fun c => (writers c).map (fun w => { w with released := w.released + 1 })

/-- The epilogue the recorder thread runs after its loop breaks. -/
def finishRun (s : RecState) : RecState :=
  { s with writers := releaseAll s.writers, alive := false }

/-- `MultiCamRecorder.stop()`: clear the running event and join.  If the
thread is still alive it observes the cleared flag, breaks, and runs the
release epilogue before `join` returns; a later call finds the thread
already finished and the epilogue does not run again. -/
def stop (s : RecState) : RecState :=
  if s.alive then finishRun { s with running := false }
  else { s with running := false }

/-- The queue effect of one accepted `enqueue` as a pure list operation
(capacity `K`). -/
def push (K : Nat) (q : List (Nat × Frame)) (p : Nat × Frame) :
    List (Nat × Frame) :=
  if 0 < K ∧ K ≤ q.length then q.tail ++ [p] else q ++ [p]

/-- A sequence of `enqueue` calls for one camera, each with an explicit
timestamp. -/
def enqueueSeq (s : RecState) (cam : Nat) (items : List (Nat × Frame))
    (now : Nat) : RecState :=
  items.foldl (fun st p => enqueue st cam p.2 (some p.1) now) s

/-- The peek-slot invariant of the alignment loop: each configured
camera's peek slot is empty or holds exactly the current queue head. -/
def PeekInv (s : RecState) : Prop :=
  ∀ cid ∈ s.cam_ids,
    s.peek_buf cid = none ∨ s.peek_buf cid = (s.queues cid).head?

/-! ### CameraThread (src/Ver.2/CameraThread.py) -/

/-- The `cv2.VideoCapture` handle as `CameraThread` uses it: the stored
frame width/height/fps properties, whether `retrieve()` succeeds, and the
decoded buffer it would return on success. -/
structure CapState where
  frame_width : Nat
  frame_height : Nat
  fps : Nat
  retrieve_ok : Bool
  frame_data : Buffer
deriving Repr

/-- The `cap.set(...)` calls in `CameraThread.__init__`: store the
configured resolution and fps on the device. -/
def configureCap (cap : CapState) (width height fps : Nat) : CapState :=
  { cap with frame_width := width, frame_height := height, fps := fps }

/-- `CameraThread.retrieve_frame()`: on retrieve failure return
`np.zeros((h, w, 3))` with `h`/`w` read back from the device properties
instead of raising. -/
def retrieve_frame (cap : CapState) : Buffer :=
  if cap.retrieve_ok then cap.frame_data
  else zeros cap.frame_height cap.frame_width 3

/-! ### The two-phase grab/retrieve rendezvous

`CameraThread.run` loops `grab(); barrier.wait(); barrier.wait()` and
`SyncThread.run` loops `barrier.wait(); retrieve all; emit;
barrier.wait()`, over one `threading.Barrier(n + 1)`.  We model the
interleaving as a transition system: a barrier phase releases all its
waiters atomically once all `n + 1` parties have arrived. -/

/-- Program counter of a camera grab thread within one cycle. -/
inductive WPC where
  | grabbing
  | wait1
  | between
  | wait2
deriving DecidableEq, Repr

/-- Program counter of the retrieve dispatcher within one cycle. -/
inductive DPC where
  | dwait1
  | retrieving
  | dwait2
deriving DecidableEq, Repr

/-- Global state: each of the `n` camera threads plus the dispatcher. -/
structure GateSys (n : Nat) where
  workers : Fin n → WPC
  disp : DPC

/-- Initial state: every camera thread is performing its first grab, the
dispatcher is waiting at the barrier. -/
def initSys (n : Nat) : GateSys n :=
  { workers := fun _ => .grabbing, disp := .dwait1 }

/-- Interleaving semantics of one barrier cycle. -/
inductive GateStep (n : Nat) : GateSys n → GateSys n → Prop where
  | grab_done (s : GateSys n) (i : Fin n) (h : s.workers i = .grabbing) :
      GateStep n s { workers := Function.update s.workers i .wait1, disp := s.disp }
  | phase1_release (s : GateSys n) (hw : ∀ i, s.workers i = .wait1)
      (hd : s.disp = .dwait1) :
      GateStep n s { workers := fun _ => .between, disp := .retrieving }
  | arrive2 (s : GateSys n) (i : Fin n) (h : s.workers i = .between) :
      GateStep n s { workers := Function.update s.workers i .wait2, disp := s.disp }
  | disp_done (s : GateSys n) (h : s.disp = .retrieving) :
      GateStep n s { workers := s.workers, disp := .dwait2 }
  | phase2_release (s : GateSys n) (hw : ∀ i, s.workers i = .wait2)
      (hd : s.disp = .dwait2) :
      GateStep n s { workers := fun _ => .grabbing, disp := .dwait1 }

/-- States reachable from the initial configuration. -/
inductive GateReach (n : Nat) : GateSys n → Prop where
  | init : GateReach n (initSys n)
  | step {s t : GateSys n} : GateReach n s → GateStep n s t → GateReach n t

/-- Inductive invariant: once the dispatcher has passed phase 1 (it is
retrieving or waiting at phase 2), every camera thread has finished its
grab and passed phase 1 as well. -/
def GateInv {n : Nat} (s : GateSys n) : Prop :=
  (s.disp = .retrieving ∨ s.disp = .dwait2) →
    ∀ i, s.workers i = .between ∨ s.workers i = .wait2

/-! ## Basic lemmas about `enqueue` -/

theorem enqueue_running (s : RecState) (cam : Nat) (f : Frame)
    (ts : Option Nat) (now : Nat) :
    (enqueue s cam f ts now).running = s.running := by
  unfold enqueue; split <;> rfl

theorem enqueue_cam_ids (s : RecState) (cam : Nat) (f : Frame)
    (ts : Option Nat) (now : Nat) :
    (enqueue s cam f ts now).cam_ids = s.cam_ids := by
  unfold enqueue; split <;> rfl

theorem enqueue_queue_size (s : RecState) (cam : Nat) (f : Frame)
    (ts : Option Nat) (now : Nat) :
    (enqueue s cam f ts now).queue_size = s.queue_size := by
  unfold enqueue; split <;> rfl

/-- On an active session with a configured camera, `enqueue` performs a
`push` on that camera's queue. -/
theorem enqueue_queues_active (s : RecState) (cam : Nat) (f : Frame)
    (ts : Option Nat) (now : Nat) (h_run : s.running = true)
    (h_cam : cam ∈ s.cam_ids) :
    (enqueue s cam f ts now).queues cam
      = push s.queue_size (s.queues cam) (ts.getD now, f) := by
  unfold enqueue push
  rw [if_neg (by simp [h_run, h_cam])]
  simp

/-! ## Drop-oldest queue lemmas -/

theorem push_length_le (K : Nat) (hK : 1 ≤ K) (q : List (Nat × Frame))
    (p : Nat × Frame) (h : q.length ≤ K) : (push K q p).length ≤ K := by
  unfold push
  split
  · rename_i hc
    have hq : q ≠ [] := by
      intro he
      subst he
      simp at hc
      omega
    simp [List.length_tail]
    omega
  · rename_i hc
    simp only [List.length_append, List.length_cons, List.length_nil]
    omega

theorem foldl_push_length_le (K : Nat) (hK : 1 ≤ K)
    (items : List (Nat × Frame)) :
    ∀ q : List (Nat × Frame), q.length ≤ K →
      (items.foldl (push K) q).length ≤ K := by
  induction items with
  | nil => intro q h; simpa using h
  | cons a t ih => intro q h; exact ih _ (push_length_le K hK q a h)

/-- While there is room, `push` only appends. -/
theorem foldl_push_append (K : Nat) (items : List (Nat × Frame)) :
    ∀ q : List (Nat × Frame), q.length + items.length ≤ K →
      items.foldl (push K) q = q ++ items := by
  induction items with
  | nil => intro q _; simp
  | cons a t ih =>
    intro q h
    simp only [List.foldl_cons]
    have hp : push K q a = q ++ [a] := by
      unfold push
      rw [if_neg]
      rintro ⟨-, h2⟩
      simp at h
      omega
    rw [hp, ih (q ++ [a]) (by simp at h ⊢; omega)]
    simp

/-- Folding the per-camera effect: a sequence of `enqueue` calls is a
`foldl` of `push` on that camera's queue. -/
theorem enqueueSeq_queues (cam now : Nat) (items : List (Nat × Frame)) :
    ∀ s : RecState, s.running = true → cam ∈ s.cam_ids →
      (enqueueSeq s cam items now).queues cam
        = items.foldl (push s.queue_size) (s.queues cam) := by
  induction items with
  | nil => intro s _ _; rfl
  | cons a t ih =>
    intro s hr hc
    obtain ⟨ats, af⟩ := a
    have hstep := enqueue_queues_active s cam af (some ats) now hr hc
    have hrun' : (enqueue s cam af (some ats) now).running = true := by
      rw [enqueue_running]; exact hr
    have hcam' : cam ∈ (enqueue s cam af (some ats) now).cam_ids := by
      rw [enqueue_cam_ids]; exact hc
    have := ih (enqueue s cam af (some ats) now) hrun' hcam'
    simp only [enqueueSeq, List.foldl_cons] at this ⊢
    rw [this, enqueue_queue_size, hstep]
    rfl

/-- A full queue receiving one more push keeps the most recent items. -/
theorem foldl_push_overflow (K : Nat) (hK : 1 ≤ K) (items : List (Nat × Frame))
    (h : items.length = K + 1) :
    items.foldl (push K) [] = items.drop 1 := by
  have hsplit : items.take K ++ items.drop K = items := List.take_append_drop K items
  have hlen1 : (items.drop K).length = 1 := by simp [h]
  obtain ⟨x, hx⟩ := List.length_eq_one.mp hlen1
  have htake_len : (items.take K).length = K := by simp [h]
  calc items.foldl (push K) []
      = (items.take K ++ items.drop K).foldl (push K) [] := by rw [hsplit]
    _ = (items.drop K).foldl (push K) (items.take K) := by
        rw [List.foldl_append,
          foldl_push_append K (items.take K) [] (by simp [htake_len])]
        simp
    _ = push K (items.take K) x := by rw [hx]; rfl
    _ = (items.take K).tail ++ [x] := by
        unfold push
        rw [if_pos ⟨hK, by rw [htake_len]⟩]
    _ = items.drop 1 := by
        rw [← hx]
        cases items with
        | nil => simp at h
        | cons a t =>
            obtain ⟨k, rfl⟩ : ∃ k, K = k + 1 := ⟨K - 1, by omega⟩
            simp only [List.take_succ_cons, List.drop_succ_cons, List.drop_one,
              List.tail_cons]
            exact List.take_append_drop k t

/-- C3: a per-camera queue of capacity `K ≥ 1` never grows beyond `K`
under any sequence of enqueues with no draining, and after exactly `K + 1`
enqueues from empty it holds the most recent `K` items in arrival order,
the oldest having been discarded. -/
theorem queue_bounded_drop_oldest (s : RecState) (cam now K : Nat)
    (items : List (Nat × Frame))
    (h_run : s.running = true) (h_cam : cam ∈ s.cam_ids)
    (hK : s.queue_size = K) (hK1 : 1 ≤ K) (h0 : s.queues cam = []) :
    ((enqueueSeq s cam items now).queues cam).length ≤ K ∧
      (items.length = K + 1 →
        (enqueueSeq s cam items now).queues cam = items.drop 1) := by
  have hq := enqueueSeq_queues cam now items s h_run h_cam
  rw [h0, hK] at hq
  refine ⟨?_, ?_⟩
  · rw [hq]
    exact foldl_push_length_le K hK1 items [] (by simp)
  · intro hlen
    rw [hq]
    exact foldl_push_overflow K hK1 items hlen

/-- A fresh two-camera session with queue capacity 2, used to witness the
drop-oldest property. -/
def exC3 : RecState :=
  { cam_ids := [0, 1], fps := 30, sync_window_ns := 25000000, queue_size := 2,
    queues := fun _ => [], writers := fun _ => none, peek_buf := fun _ => none,
    running := true, alive := true }

theorem queue_bounded_drop_oldest_witness :
    ((enqueueSeq exC3 0
        [(1, ⟨480, 640, 3, 1⟩), (2, ⟨480, 640, 3, 2⟩), (3, ⟨480, 640, 3, 3⟩)]
        0).queues 0).length ≤ 2 ∧
      ([(1, (⟨480, 640, 3, 1⟩ : Frame)), (2, ⟨480, 640, 3, 2⟩),
          (3, ⟨480, 640, 3, 3⟩)].length = 2 + 1 →
        (enqueueSeq exC3 0
            [(1, ⟨480, 640, 3, 1⟩), (2, ⟨480, 640, 3, 2⟩), (3, ⟨480, 640, 3, 3⟩)]
            0).queues 0
          = [(1, (⟨480, 640, 3, 1⟩ : Frame)), (2, ⟨480, 640, 3, 2⟩),
              (3, ⟨480, 640, 3, 3⟩)].drop 1) :=
  queue_bounded_drop_oldest exC3 0 0 2 _ rfl (by decide) rfl (by decide) rfl

/-- C6: `enqueue` after stop has been signalled, or with an unconfigured
camera id, returns without modifying any recorder state. -/
theorem enqueue_inactive_noop (s : RecState) (cam : Nat) (f : Frame)
    (ts : Option Nat) (now : Nat)
    (h : s.running = false ∨ cam ∉ s.cam_ids) :
    enqueue s cam f ts now = s := by
  unfold enqueue
  rw [if_pos h]

/-- A stopped recorder used to witness the post-stop no-op. -/
def exC6 : RecState :=
  { cam_ids := [0, 1], fps := 30, sync_window_ns := 25000000, queue_size := 8,
    queues := fun _ => [], writers := fun _ => none, peek_buf := fun _ => none,
    running := false, alive := true }

theorem enqueue_inactive_noop_witness :
    enqueue exC6 0 ⟨480, 640, 3, 9⟩ none 5 = exC6 :=
  enqueue_inactive_noop exC6 0 ⟨480, 640, 3, 9⟩ none 5 (Or.inl rfl)

/-- C9: an `enqueue` with no timestamp on an active session inserts the
frame as the newest queue entry paired with the monotonic-clock value
taken at call time (timestamps in this model are always present). -/
theorem enqueue_default_ts_clock (s : RecState) (cam : Nat) (f : Frame)
    (now : Nat) (h_run : s.running = true) (h_cam : cam ∈ s.cam_ids) :
    ((enqueue s cam f none now).queues cam).getLast? = some (now, f) := by
  rw [enqueue_queues_active s cam f none now h_run h_cam]
  unfold push
  split <;> simp

/-- An active session used to witness the default-timestamp insertion. -/
def exC9 : RecState :=
  { cam_ids := [0, 1], fps := 30, sync_window_ns := 25000000, queue_size := 8,
    queues := fun _ => [], writers := fun _ => none, peek_buf := fun _ => none,
    running := true, alive := true }

theorem enqueue_default_ts_clock_witness :
    ((enqueue exC9 0 ⟨480, 640, 3, 4⟩ none 77).queues 0).getLast?
      = some (77, ⟨480, 640, 3, 4⟩) :=
  enqueue_default_ts_clock exC9 0 ⟨480, 640, 3, 4⟩ 77 rfl (by decide)

/-- C5: when the device retrieve reports failure, `retrieve_frame` returns
a zero-filled 3-channel buffer whose height and width are the configured
capture resolution. -/
theorem retrieve_failure_zero_frame (cap : CapState) (w h fps : Nat)
    (hfail : cap.retrieve_ok = false) :
    (retrieve_frame (configureCap cap w h fps)).length = h ∧
      ∀ row ∈ retrieve_frame (configureCap cap w h fps),
        row.length = w ∧ ∀ px ∈ row, px.length = 3 ∧ ∀ v ∈ px, v = 0 := by
  have hz : retrieve_frame (configureCap cap w h fps) = zeros h w 3 := by
    unfold retrieve_frame configureCap
    simp [hfail]
  rw [hz]
  unfold zeros
  refine ⟨by simp, ?_⟩
  intro row hrow
  rw [List.eq_of_mem_replicate hrow]
  refine ⟨by simp, ?_⟩
  intro px hpx
  rw [List.eq_of_mem_replicate hpx]
  refine ⟨by simp, ?_⟩
  intro v hv
  exact List.eq_of_mem_replicate hv

/-- A device handle whose retrieve fails. -/
def exCap : CapState :=
  { frame_width := 0, frame_height := 0, fps := 0, retrieve_ok := false,
    frame_data := [] }

theorem retrieve_failure_zero_frame_witness :
    (retrieve_frame (configureCap exCap 640 480 30)).length = 480 ∧
      ∀ row ∈ retrieve_frame (configureCap exCap 640 480 30),
        row.length = 640 ∧ ∀ px ∈ row, px.length = 3 ∧ ∀ v ∈ px, v = 0 :=
  retrieve_failure_zero_frame exCap 640 480 30 rfl

/-! ## Writer lifecycle -/

theorem writeFrame_some (fps : Nat) (ws : Nat → Option Writer) (cid : Nat)
    (w : Writer) (fr : Frame) (h : ws cid = some w) :
    writeFrame fps ws cid fr cid
      = some { w with frames := w.frames ++ [fr] } := by
  simp [writeFrame, writer_for, h]

theorem writeFrame_none (fps : Nat) (ws : Nat → Option Writer) (cid : Nat)
    (fr : Frame) (h : ws cid = none) :
    writeFrame fps ws cid fr cid
      = some { width := fr.width, height := fr.height, fps := fps,
               frames := [fr], released := 0 } := by
  simp [writeFrame, writer_for, h]

/-- Writing a sequence of frames through an existing sink appends them all
to that same sink, leaving its dimensions and fps untouched. -/
theorem foldl_writeFrame_append (fps : Nat) (cid : Nat) (rest : List Frame) :
    ∀ (ws : Nat → Option Writer) (w : Writer), ws cid = some w →
      (rest.foldl (fun m fr => writeFrame fps m cid fr) ws) cid
        = some { w with frames := w.frames ++ rest } := by
  induction rest with
  | nil => intro ws w h; simpa using h
  | cons a t ih =>
    intro ws w h
    simp only [List.foldl_cons]
    rw [ih _ _ (writeFrame_some fps ws cid w a h)]
    simp

/-- C7: a camera's sink is created lazily by the first committed frame,
opened with that frame's width/height and the session fps; every later
committed frame for that camera is appended to that same sink, whose
dimensions never change. -/
theorem writer_created_lazily (fps : Nat) (ws : Nat → Option Writer)
    (cid : Nat) (f0 : Frame) (rest : List Frame) (h : ws cid = none) :
    ((f0 :: rest).foldl (fun m fr => writeFrame fps m cid fr) ws) cid
      = some { width := f0.width, height := f0.height, fps := fps,
               frames := f0 :: rest, released := 0 } := by
  simp only [List.foldl_cons]
  rw [foldl_writeFrame_append fps cid rest _ _ (writeFrame_none fps ws cid f0 h)]
  simp

theorem writer_created_lazily_witness :
    (([⟨480, 640, 3, 1⟩, ⟨480, 640, 3, 2⟩] :
          List Frame).foldl (fun m fr => writeFrame 30 m 0 fr) (fun _ => none)) 0
      = some { width := 640, height := 480, fps := 30,
               frames := [⟨480, 640, 3, 1⟩, ⟨480, 640, 3, 2⟩], released := 0 } :=
  writer_created_lazily 30 (fun _ => none) 0 ⟨480, 640, 3, 1⟩ [⟨480, 640, 3, 2⟩] rfl

/-! ## Stop and release -/

theorem set_running_false_eq_self (t : RecState) (h : t.running = false) :
    { t with running := false } = t := by
  cases t
  simp_all

/-- C4 counterexample state: a live recorder holding one created sink. -/
def exC4 : RecState :=
  { cam_ids := [0], fps := 30, sync_window_ns := 2000000, queue_size := 8,
    queues := fun _ => [],
    writers := fun c => if c = 0 then some ⟨640, 480, 30, [], 0⟩ else none,
    peek_buf := fun _ => none,
    running := true, alive := true }

/-- C4 counterexample: after `stop()` returns, the writers map is NOT
cleared — it still holds camera 0's (released) sink, so the claim that
stop clears the recorder's internal maps is false on this code. -/
theorem stop_does_not_clear_writers : (stop exC4).writers 0 ≠ none := by
  simp [stop, exC4, finishRun, releaseAll]

/-- C4 (amended): stop releases each created sink exactly once (the
release counter of every sink goes from 0 to 1) without clearing the
maps; a second stop is a no-op; stop on an already-finished recorder only
clears the running flag, and is the identity when the flag is already
clear. -/
theorem stop_releases_each_sink_once (s : RecState) :
    (s.alive = true → ∀ cid w, s.writers cid = some w → w.released = 0 →
        (stop s).writers cid = some { w with released := 1 }) ∧
      stop (stop s) = stop s ∧
      (s.alive = false → s.running = false → stop s = s) := by
  refine ⟨?_, ?_, ?_⟩
  · intro ha cid w hw hrel
    simp [stop, ha, finishRun, releaseAll, hw, hrel]
  · have h1 : (stop s).alive = false := by
      by_cases ha : s.alive = true <;> simp [stop, ha, finishRun]
    have h2 : (stop s).running = false := by
      by_cases ha : s.alive = true <;> simp [stop, ha, finishRun]
    generalize hts : stop s = t at h1 h2 ⊢
    unfold stop
    rw [if_neg (by simp [h1])]
    exact set_running_false_eq_self t h2
  · intro ha hr
    simp only [stop]
    rw [if_neg (by simp [ha])]
    exact set_running_false_eq_self s hr

theorem stop_releases_each_sink_once_witness :
    (stop exC4).writers 0 = some ⟨640, 480, 30, [], 1⟩ ∧
      stop (stop exC4) = stop exC4 := by
  obtain ⟨h1, h2, -⟩ := stop_releases_each_sink_once exC4
  exact ⟨h1 rfl 0 ⟨640, 480, 30, [], 0⟩ (by simp [exC4]) rfl, h2⟩

/-! ## Two-phase rendezvous: retrieve never races the next grab -/

theorem gateInv_init (n : Nat) : GateInv (initSys n) := by
  intro hd
  rcases hd with hd | hd <;> simp [initSys] at hd

theorem gateInv_step {n : Nat} {s t : GateSys n} (hs : GateInv s)
    (hst : GateStep n s t) : GateInv t := by
  cases hst with
  | grab_done i h =>
      intro hd j
      have hcontra := hs hd i
      rw [h] at hcontra
      rcases hcontra with h' | h' <;> cases h'
  | phase1_release hw hd =>
      intro _ j
      left
      rfl
  | arrive2 i h =>
      intro hd j
      by_cases hij : j = i
      · subst hij
        right
        simp [Function.update]
      · have hred : (GateSys.mk (Function.update s.workers i WPC.wait2)
            s.disp).workers j = Function.update s.workers i WPC.wait2 j := rfl
        rw [hred, Function.update_noteq hij]
        exact hs hd j
  | disp_done h =>
      intro _ j
      exact hs (Or.inl h) j
  | phase2_release hw hd =>
      intro hd' j
      rcases hd' with h' | h' <;> cases h'

theorem gateInv_reachable {n : Nat} {s : GateSys n} (h : GateReach n s) :
    GateInv s := by
  induction h with
  | init => exact gateInv_init n
  | step _ hst ih => exact gateInv_step ih hst

/-- C8: in every reachable configuration of the grab/retrieve rendezvous,
while the dispatcher is in its retrieve section no camera thread is
performing a grab — phase 2 releases the workers to the next grab only
after the dispatcher has finished retrieving and arrived at the barrier. -/
theorem retrieve_never_overlaps_grab {n : Nat} {s : GateSys n}
    (h : GateReach n s) (hd : s.disp = .retrieving) :
    ∀ i, s.workers i ≠ .grabbing := by
  intro i hgrab
  rcases gateInv_reachable h (Or.inl hd) i with h' | h' <;>
    (rw [hgrab] at h'; cases h')

/-- The reachable one-camera configuration in which the dispatcher is
mid-retrieve. -/
def gateWitState : GateSys 1 :=
  { workers := fun _ => .between, disp := .retrieving }

theorem retrieve_never_overlaps_grab_witness :
    gateWitState.workers 0 ≠ .grabbing := by
  have h1 : GateReach 1
      { workers := Function.update (initSys 1).workers 0 .wait1,
        disp := (initSys 1).disp } :=
    GateReach.step GateReach.init (GateStep.grab_done (initSys 1) 0 rfl)
  have h2 : GateReach 1 gateWitState := by
    have hrel := GateReach.step h1 (GateStep.phase1_release _
      (fun i => by fin_cases i; simp [initSys, Function.update]) rfl)
    simpa [gateWitState] using hrel
  exact retrieve_never_overlaps_grab h2 rfl 0

/-! ## Alignment loop -/

/-- When every configured camera already has a peeked item, the peek-fill
phase changes nothing. -/
theorem fillPeeks_eq_self (s : RecState)
    (h : ∀ cid ∈ s.cam_ids, s.peek_buf cid ≠ none) : fillPeeks s = s := by
  have hp : (fun cid =>
      if cid ∈ s.cam_ids ∧ s.peek_buf cid = none ∧ s.queues cid ≠ []
      then (s.queues cid).head? else s.peek_buf cid) = s.peek_buf := by
    funext cid
    rw [if_neg]
    rintro ⟨h1, h2, -⟩
    exact h cid h1 h2
  unfold fillPeeks
  rw [hp]

theorem any_isNone_eq_false (s : RecState) (pk : Nat → Nat × Frame)
    (h : ∀ cid ∈ s.cam_ids, s.peek_buf cid = some (pk cid)) :
    (s.cam_ids.any fun cid => (s.peek_buf cid).isNone) = false := by
  rw [List.any_eq_false]
  intro c hc
  simp [h c hc]

theorem filterMap_peek_eq_map (l : List Nat) (pb : Nat → Option (Nat × Frame))
    (pk : Nat → Nat × Frame) (h : ∀ cid ∈ l, pb cid = some (pk cid)) :
    l.filterMap (fun cid => (pb cid).map Prod.fst)
      = l.map (fun cid => (pk cid).1) := by
  induction l with
  | nil => rfl
  | cons a t ih =>
      rw [List.filterMap_cons, h a (List.mem_cons_self a t)]
      simp only [Option.map_some']
      rw [List.map_cons, ih (fun c hc => h c (List.mem_cons_of_mem a hc))]

theorem filterMap_head_eq_map (l : List Nat)
    (qs : Nat → List (Nat × Frame)) (pk : Nat → Nat × Frame)
    (h : ∀ cid ∈ l, (qs cid).head? = some (pk cid)) :
    l.filterMap (fun cid => ((qs cid).head?).map (fun p => (cid, p.2)))
      = l.map (fun cid => (cid, (pk cid).2)) := by
  induction l with
  | nil => rfl
  | cons a t ih =>
      rw [List.filterMap_cons, h a (List.mem_cons_self a t)]
      simp only [Option.map_some']
      rw [List.map_cons, ih (fun c hc => h c (List.mem_cons_of_mem a hc))]

/-- `ts_list` is the list of peeked timestamps in `cam_ids` order. -/
theorem tsList_eq_map (s : RecState) (pk : Nat → Nat × Frame)
    (h : ∀ cid ∈ s.cam_ids, s.peek_buf cid = some (pk cid)) :
    tsList s = s.cam_ids.map (fun cid => (pk cid).1) :=
  filterMap_peek_eq_map s.cam_ids s.peek_buf pk h

/-- C1: an alignment iteration in which every configured camera has a
peeked item (the queue head) and the peeked timestamps all fall within the
sync window commits exactly one batch: every camera's head is removed,
every peek slot is cleared, and the batch — one frame per configured
camera, in `cam_ids` order — is written through the per-camera sinks. -/
theorem commit_within_window (s : RecState) (pk : Nat → Nat × Frame)
    (h_run : s.running = true)
    (h_pk : ∀ cid ∈ s.cam_ids, s.peek_buf cid = some (pk cid))
    (h_head : ∀ cid ∈ s.cam_ids, (s.queues cid).head? = some (pk cid))
    (h_spread : tMax s - tMin s ≤ s.sync_window_ns) :
    (runStep s).2 = .committed (s.cam_ids.map (fun cid => (cid, (pk cid).2))) ∧
      (runStep s).1.writers
        = write_batch s.fps s.writers
            (s.cam_ids.map (fun cid => (cid, (pk cid).2))) ∧
      ∀ cid ∈ s.cam_ids,
        (runStep s).1.queues cid = (s.queues cid).tail ∧
        (runStep s).1.peek_buf cid = none := by
  have hfill : fillPeeks s = s :=
    fillPeeks_eq_self s (fun c hc => by simp [h_pk c hc])
  have hany := any_isNone_eq_false s pk h_pk
  have hbatch : mkBatch s = s.cam_ids.map (fun cid => (cid, (pk cid).2)) :=
    filterMap_head_eq_map s.cam_ids s.queues pk h_head
  simp only [runStep, h_run, hfill, hany, Bool.false_eq_true, if_false,
    h_spread, if_true, ite_true, ite_false, hbatch]
  refine ⟨rfl, rfl, ?_⟩
  intro cid hcid
  exact ⟨by simp [hcid], by simp [hcid]⟩

/-- Two cameras, window 25 ms, peeked head timestamps 0 ms and 10 ms. -/
def exC1 : RecState :=
  { cam_ids := [0, 1], fps := 30, sync_window_ns := 25000000, queue_size := 64,
    queues := fun c => if c = 0 then [(0, ⟨480, 640, 3, 10⟩)]
      else if c = 1 then [(10000000, ⟨480, 640, 3, 11⟩)] else [],
    writers := fun _ => none,
    peek_buf := fun c => if c = 0 then some (0, ⟨480, 640, 3, 10⟩)
      else if c = 1 then some (10000000, ⟨480, 640, 3, 11⟩) else none,
    running := true, alive := true }

/-- The peeked items of `exC1`, keyed by camera id. -/
def pkC1 : Nat → Nat × Frame := fun c =>
  if c = 0 then (0, ⟨480, 640, 3, 10⟩) else (10000000, ⟨480, 640, 3, 11⟩)

theorem commit_within_window_witness :
    (runStep exC1).2
        = .committed [(0, ⟨480, 640, 3, 10⟩), (1, ⟨480, 640, 3, 11⟩)] ∧
      (runStep exC1).1.queues 0 = [] ∧ (runStep exC1).1.queues 1 = [] ∧
      (runStep exC1).1.peek_buf 0 = none ∧
      (runStep exC1).1.peek_buf 1 = none := by
  obtain ⟨h1, h2, h3⟩ :=
    commit_within_window exC1 pkC1 rfl (by decide) (by decide) (by decide)
  refine ⟨?_, ?_, ?_, ?_, ?_⟩
  · rw [h1]
    rfl
  · have := (h3 0 (by decide)).1
    rw [this]
    rfl
  · have := (h3 1 (by decide)).1
    rw [this]
    rfl
  · exact (h3 0 (by decide)).2
  · exact (h3 1 (by decide)).2

/-- C2: an alignment iteration in which every configured camera has a
peeked item but the timestamp spread exceeds the sync window discards
exactly one item: the head of the camera holding the minimum peeked
timestamp is removed and its peek slot cleared, every other camera's
queue and peek slot are untouched, and nothing is written. -/
theorem divergence_drops_min (s : RecState) (pk : Nat → Nat × Frame)
    (h_run : s.running = true)
    (h_ne : s.cam_ids ≠ [])
    (h_pk : ∀ cid ∈ s.cam_ids, s.peek_buf cid = some (pk cid))
    (h_spread : s.sync_window_ns < tMax s - tMin s) :
    ∃ cd, cd ∈ s.cam_ids ∧ (pk cd).1 = tMin s ∧
      (runStep s).2 = .dropped cd ∧
      (runStep s).1.queues cd = (s.queues cd).tail ∧
      (runStep s).1.peek_buf cd = none ∧
      (∀ c, c ≠ cd → (runStep s).1.queues c = s.queues c ∧
        (runStep s).1.peek_buf c = s.peek_buf c) ∧
      (runStep s).1.writers = s.writers := by
  have hfill : fillPeeks s = s :=
    fillPeeks_eq_self s (fun c hc => by simp [h_pk c hc])
  have hany := any_isNone_eq_false s pk h_pk
  have hnle : ¬ (tMax s - tMin s ≤ s.sync_window_ns) := by omega
  have hts : tsList s = s.cam_ids.map (fun cid => (pk cid).1) :=
    tsList_eq_map s pk h_pk
  have htsne : tsList s ≠ [] := by
    rw [hts]
    simpa using h_ne
  have hmem : tMin s ∈ tsList s := by
    cases hminq : (tsList s).min? with
    | none => exact absurd (List.min?_eq_none_iff.mp hminq) htsne
    | some m =>
        have hmmem : m ∈ tsList s :=
          List.min?_mem (fun a b => min_choice a b) hminq
        simpa [tMin, hminq] using hmmem
  have hilt : (tsList s).indexOf (tMin s) < (tsList s).length :=
    List.indexOf_lt_length.mpr hmem
  have hilt' : (tsList s).indexOf (tMin s) < s.cam_ids.length := by
    have hlen : (tsList s).length = s.cam_ids.length := by
      rw [hts]
      exact List.length_map s.cam_ids _
    omega
  have hcd_elem : s.cam_ids.getD ((tsList s).indexOf (tMin s)) 0
      = s.cam_ids[(tsList s).indexOf (tMin s)] := by
    rw [List.getD_eq_getElem?_getD, List.getElem?_eq_getElem hilt']
    rfl
  have hcd_mem : s.cam_ids.getD ((tsList s).indexOf (tMin s)) 0 ∈ s.cam_ids := by
    rw [hcd_elem]
    exact List.getElem_mem hilt'
  have hA : (tsList s).getD ((tsList s).indexOf (tMin s)) 0 = tMin s := by
    rw [List.getD_eq_getElem?_getD, List.getElem?_eq_getElem hilt]
    exact List.getElem_indexOf hilt
  have hB : (s.cam_ids.map (fun cid => (pk cid).1)).getD
        ((tsList s).indexOf (tMin s)) 0
      = (pk (s.cam_ids.getD ((tsList s).indexOf (tMin s)) 0)).1 := by
    rw [List.getD_eq_getElem?_getD, List.getD_eq_getElem?_getD,
      List.getElem?_map, List.getElem?_eq_getElem hilt']
    rfl
  have hpk_cd : (pk (s.cam_ids.getD ((tsList s).indexOf (tMin s)) 0)).1
      = tMin s := by
    rw [← hB, ← hts]
    exact hA
  refine ⟨s.cam_ids.getD ((tsList s).indexOf (tMin s)) 0, hcd_mem, hpk_cd,
    ?_, ?_, ?_, ?_, ?_⟩ <;>
    simp only [runStep, h_run, hfill, hany, Bool.false_eq_true, if_false,
      ite_false, hnle, ite_true]
  · rfl
  · simp
  · simp
  · intro c hc
    constructor
    · exact if_neg hc
    · exact if_neg hc
  · rfl

/-- C10: the peek-slot invariant — each configured camera's peek slot is
empty or holds exactly its queue head — is preserved by the peek-fill
phase. -/
theorem peekInv_fillPeeks (s : RecState) (h : PeekInv s) :
    PeekInv (fillPeeks s) := by
  intro cid hcid
  have hcid' : cid ∈ s.cam_ids := hcid
  by_cases hc : cid ∈ s.cam_ids ∧ s.peek_buf cid = none ∧ s.queues cid ≠ []
  · right
    show (if cid ∈ s.cam_ids ∧ s.peek_buf cid = none ∧ s.queues cid ≠ []
        then (s.queues cid).head? else s.peek_buf cid) = (s.queues cid).head?
    rw [if_pos hc]
  · have hinv := h cid hcid'
    show (if cid ∈ s.cam_ids ∧ s.peek_buf cid = none ∧ s.queues cid ≠ []
          then (s.queues cid).head? else s.peek_buf cid) = none ∨
        (if cid ∈ s.cam_ids ∧ s.peek_buf cid = none ∧ s.queues cid ≠ []
          then (s.queues cid).head? else s.peek_buf cid) = (s.queues cid).head?
    rw [if_neg hc]
    exact hinv

/-- C10: every alignment-loop iteration — stop check, idle, commit, or
divergence drop — preserves the peek-slot invariant: each configured
camera's peek slot is empty or holds exactly the current head of that
camera's queue. -/
theorem peek_inv_preserved (s : RecState) (h : PeekInv s) :
    PeekInv (runStep s).1 := by
  by_cases hrun : s.running = false
  · simp only [runStep, hrun, ite_true, if_true]
    exact h
  · have hrun' : s.running = true := by
      simpa using hrun
    have hs1 := peekInv_fillPeeks s h
    by_cases hany : ((fillPeeks s).cam_ids.any
        fun cid => ((fillPeeks s).peek_buf cid).isNone) = true
    · simp only [runStep, hrun', Bool.true_eq_false, if_false, hany, ite_true,
        if_true]
      exact hs1
    · have hany' : ((fillPeeks s).cam_ids.any
          fun cid => ((fillPeeks s).peek_buf cid).isNone) = false := by
        simpa using hany
      by_cases hsp : tMax (fillPeeks s) - tMin (fillPeeks s)
          ≤ (fillPeeks s).sync_window_ns
      · simp only [runStep, hrun', Bool.true_eq_false, Bool.false_eq_true,
          if_false, hany', hsp, ite_true, if_true]
        intro cid hcid
        left
        exact if_pos hcid
      · simp only [runStep, hrun', Bool.true_eq_false, Bool.false_eq_true,
          if_false, hany', hsp, ite_true, if_true, ite_false]
        intro cid hcid
        by_cases hc : cid = (fillPeeks s).cam_ids.getD
            ((tsList (fillPeeks s)).indexOf (tMin (fillPeeks s))) 0
        · left
          exact if_pos hc
        · have hinv := hs1 cid hcid
          rcases hinv with hnone | hhead
          · left
            exact (if_neg hc).trans hnone
          · right
            exact ((if_neg hc).trans hhead).trans
              (congrArg List.head? (if_neg hc)).symm

/-- A two-camera state satisfying the peek invariant, used to witness its
preservation. -/
def exC10 : RecState :=
  { cam_ids := [0, 1], fps := 30, sync_window_ns := 25000000, queue_size := 64,
    queues := fun c => if c = 0 then [(0, ⟨480, 640, 3, 20⟩)] else [],
    writers := fun _ => none,
    peek_buf := fun c => if c = 0 then some (0, ⟨480, 640, 3, 20⟩) else none,
    running := true, alive := true }

theorem peek_inv_preserved_witness : PeekInv (runStep exC10).1 := by
  apply peek_inv_preserved
  intro cid hcid
  have : cid = 0 ∨ cid = 1 := by
    simpa [exC10] using hcid
  rcases this with rfl | rfl
  · right
    rfl
  · left
    rfl

/-- Two cameras, window 25 ms, peeked head timestamps 0 ms and 50 ms:
only camera 0's head is dropped, nothing is written. -/
def exC2 : RecState :=
  { cam_ids := [0, 1], fps := 30, sync_window_ns := 25000000, queue_size := 64,
    queues := fun c => if c = 0 then [(0, ⟨480, 640, 3, 30⟩)]
      else if c = 1 then [(50000000, ⟨480, 640, 3, 31⟩)] else [],
    writers := fun _ => none,
    peek_buf := fun c => if c = 0 then some (0, ⟨480, 640, 3, 30⟩)
      else if c = 1 then some (50000000, ⟨480, 640, 3, 31⟩) else none,
    running := true, alive := true }

/-- The peeked items of `exC2`, keyed by camera id. -/
def pkC2 : Nat → Nat × Frame := fun c =>
  if c = 0 then (0, ⟨480, 640, 3, 30⟩) else (50000000, ⟨480, 640, 3, 31⟩)

theorem divergence_drops_min_witness :
    (runStep exC2).2 = .dropped 0 ∧
      (runStep exC2).1.queues 0 = [] ∧
      (runStep exC2).1.peek_buf 0 = none ∧
      (runStep exC2).1.queues 1 = exC2.queues 1 ∧
      (runStep exC2).1.peek_buf 1 = exC2.peek_buf 1 ∧
      (runStep exC2).1.writers = exC2.writers := by
  obtain ⟨cd, hmem, hmin, hstep, hq, hp, hoth, hw⟩ :=
    divergence_drops_min exC2 pkC2 rfl (by decide) (by decide) (by decide)
  have hcd : cd = 0 := by
    have ht : tMin exC2 = 0 := by decide
    rw [ht] at hmin
    have hmem' : cd = 0 ∨ cd = 1 := by
      simpa [exC2] using hmem
    rcases hmem' with rfl | rfl
    · rfl
    · simp [pkC2] at hmin
  subst hcd
  refine ⟨hstep, ?_, hp, (hoth 1 (by decide)).1, (hoth 1 (by decide)).2, hw⟩
  rw [hq]
  rfl

end MultiCam
